import Mathlib

/-!
Verification of `src/05-objects-tasks.js`: a shallow embedding of the
CSS-selector builder (`CreateSelector`, `Combinator`, `cssSelectorBuilder`),
the JSON helpers (`getJSON`, `fromJSON`) and the `Rectangle` constructor,
together with proofs of the specified properties.

Modelling conventions:
- JavaScript exceptions become `Except String` results; the thrown message is
  the error payload.
- The mutable `this` of the JS classes becomes explicit state passing: each
  mutator consumes a `CreateSelector` and returns the updated one.
- JavaScript strings are Lean `String`s; JS numbers are modelled as `Int`
  where the code only ever manipulates them opaquely.
-/

set_option maxHeartbeats 1600000

/-- Selector fragment kinds, one per fragment-adding method of the builder. -/
inductive Kind where
  | element
  | id
  | «class»
  | attr
  | pseudoClass
  | pseudoElement
deriving DecidableEq, Repr

/-- JS name of a fragment kind, as used in `positionsElements`. -/
def kindName : Kind → String
  | .element => "element"
  | .id => "id"
  | .«class» => "class"
  | .attr => "attr"
  | .pseudoClass => "pseudoClass"
  | .pseudoElement => "pseudoElement"

/-- Embedding of the `this.settings` record initialised in the constructor of
`CreateSelector` (line 123): two nullable singletons, three arrays, one
nullable singleton, in declaration order. -/
structure Settings where
  element : Option String
  id : Option String
  «class» : List String
  attr : List String
  pseudoClass : List String
  pseudoElement : Option String
deriving DecidableEq, Repr

/-- Embedding of a `CreateSelector` instance: the `settings` record plus the
`lastElement` bookkeeping string (`''` right after construction). -/
structure CreateSelector where
  settings : Settings
  lastElement : String
deriving DecidableEq, Repr

/-- Embedding of `this.positionsElements` (line 132). -/
def positionsElements : List String :=
  ["element", "id", "class", "attr", "pseudoClass", "pseudoElement"]

/-- Embedding of `Array.prototype.indexOf`: index of the first occurrence, or
`-1` when the element is absent (hence `-1` for the initial `lastElement`). -/
def indexOfStr (l : List String) (s : String) : Int :=
  match l.findIdx? (fun x => x = s) with
  | some i => (i : Int)
  | none => -1

/-- Message of the error thrown by the ordering check (line 137). -/
def orderMessage : String :=
  "Selector parts should be arranged in the following order: element, id, class, attribute, pseudo-class, pseudo-element"

/-- Message of the error thrown by the duplicate-singleton check (line 139). -/
def duplicateMessage : String :=
  "Element, id and pseudo-element should not occur more then one time inside the selector"

/-- Result of `new CreateSelector()` (constructor, lines 122-134). -/
def newCreateSelector : CreateSelector :=
  { settings :=
      { element := none
        id := none
        «class» := []
        attr := []
        pseudoClass := []
        pseudoElement := none }
    lastElement := "" }

/-- Embedding of `CreateSelector.position` (lines 136-142): the two guards in
source order, then the assignment to `lastElement`. -/
def CreateSelector.position (sel : CreateSelector) (elPosition : String) :
    Except String CreateSelector :=
  if indexOfStr positionsElements elPosition <
      indexOfStr positionsElements sel.lastElement then
    .error orderMessage
  else if (elPosition = "element" ∨ elPosition = "id" ∨ elPosition = "pseudoElement") ∧
      indexOfStr positionsElements elPosition =
        indexOfStr positionsElements sel.lastElement then
    .error duplicateMessage
  else
    .ok { sel with lastElement := elPosition }

/-- Embedding of `CreateSelector.element` (lines 144-148). -/
def CreateSelector.element (sel : CreateSelector) (element : String) :
    Except String CreateSelector :=
  (sel.position ("element")).map fun s =>
    { s with settings := { s.settings with element := some element } }

/-- Embedding of `CreateSelector.id` (lines 150-155). -/
def CreateSelector.id (sel : CreateSelector) (id : String) :
    Except String CreateSelector :=
  (sel.position ("id")).map fun s =>
    { s with settings := { s.settings with id := some id } }

/-- Embedding of `CreateSelector.class` (lines 157-162); `push` appends. -/
def CreateSelector.«class» (sel : CreateSelector) (className : String) :
    Except String CreateSelector :=
  (sel.position ("class")).map fun s =>
    { s with settings := { s.settings with «class» := s.settings.«class» ++ [className] } }

/-- Embedding of `CreateSelector.attr` (lines 164-169). -/
def CreateSelector.attr (sel : CreateSelector) (attr : String) :
    Except String CreateSelector :=
  (sel.position ("attr")).map fun s =>
    { s with settings := { s.settings with attr := s.settings.attr ++ [attr] } }

/-- Embedding of `CreateSelector.pseudoClass` (lines 171-176). -/
def CreateSelector.pseudoClass (sel : CreateSelector) (pseudoClass : String) :
    Except String CreateSelector :=
  (sel.position ("pseudoClass")).map fun s =>
    { s with settings :=
        { s.settings with pseudoClass := s.settings.pseudoClass ++ [pseudoClass] } }

/-- Embedding of `CreateSelector.pseudoElement` (lines 178-183). -/
def CreateSelector.pseudoElement (sel : CreateSelector) (pseudoElement : String) :
    Except String CreateSelector :=
  (sel.position ("pseudoElement")).map fun s =>
    { s with settings := { s.settings with pseudoElement := some pseudoElement } }

/-- Coercion applied by `stringify` to a nullable singleton slot: in
`let element = selec || []` both `null` and the falsy empty string turn into
the empty array, and any other string is wrapped in a one-element array. -/
def fragOpt : Option String → List String
  | none => []
  | some s => if s = "" then [] else [s]

/-- Embedding of the inner `reduce` of `stringify` (line 197): left fold that
wraps every fragment between the slot's `before`/`after` decorations. -/
def renderList (before after : String) (xs : List String) : String :=
  xs.foldl (fun prev current => prev ++ before ++ current ++ after) ""

/-- Body of `CreateSelector.stringify` (lines 185-200), with the six-step loop
over `Object.values(this.settings)` unrolled in the settings declaration order
`element, id, class, attr, pseudoClass, pseudoElement`, matching
`before = ['', '#', '.', '[', ':', '::']` and `after = ['', '', '', ']', '', '']`. -/
def renderSettings (d : Settings) : String :=
  renderList ("") ("") (fragOpt d.element) ++
  renderList ("#") ("") (fragOpt d.id) ++
  renderList (".") ("") d.«class» ++
  renderList ("[") ("]") d.attr ++
  renderList (":") ("") d.pseudoClass ++
  renderList ("::") ("") (fragOpt d.pseudoElement)

/-- Embedding of `CreateSelector.stringify`: it reads only `this.settings`. -/
def CreateSelector.stringify (sel : CreateSelector) : String :=
  renderSettings sel.settings

/-- Selector values that can flow into `combine` and `stringify`: either a
`CreateSelector` instance or a `Combinator` instance (whose fields `s1`,
`comb`, `s2` are the constructor arguments, lines 203-209). -/
inductive SelectorVal where
  | single (sel : CreateSelector)
  | comb (s1 : SelectorVal) (comb : String) (s2 : SelectorVal)
deriving DecidableEq, Repr

/-- Embedding of the two `stringify` methods reachable from a selector value:
`CreateSelector.stringify`, and `Combinator.prototype.stringify`
(lines 211-215), the template literal with single spaces around the token. -/
def SelectorVal.stringify : SelectorVal → String
  | .single sel => sel.stringify
  | .comb s1 c s2 => s1.stringify ++ " " ++ c ++ " " ++ s2.stringify

namespace cssSelectorBuilder

/-- Facade method `cssSelectorBuilder.element` (lines 218-220). -/
def element (element : String) : Except String CreateSelector :=
  newCreateSelector.element element

/-- Facade method `cssSelectorBuilder.id` (lines 222-224). -/
def id (id : String) : Except String CreateSelector :=
  newCreateSelector.id id

/-- Facade method `cssSelectorBuilder.class` (lines 226-228). -/
def «class» (className : String) : Except String CreateSelector :=
  newCreateSelector.«class» className

/-- Facade method `cssSelectorBuilder.attr` (lines 230-232). -/
def attr (attr : String) : Except String CreateSelector :=
  newCreateSelector.attr attr

/-- Facade method `cssSelectorBuilder.pseudoClass` (lines 234-236). -/
def pseudoClass (pseudoClassName : String) : Except String CreateSelector :=
  newCreateSelector.pseudoClass pseudoClassName

/-- Facade method `cssSelectorBuilder.pseudoElement` (lines 238-240). -/
def pseudoElement (pseudoElementName : String) : Except String CreateSelector :=
  newCreateSelector.pseudoElement pseudoElementName

/-- Facade method `cssSelectorBuilder.combine` (lines 242-244):
`new Combinator(selector1, combinator, selector2)`. -/
def combine (selector1 : SelectorVal) (combinator : String) (selector2 : SelectorVal) :
    SelectorVal :=
  .comb selector1 combinator selector2

end cssSelectorBuilder

instance {ε α : Type} [DecidableEq ε] [DecidableEq α] : DecidableEq (Except ε α)
  | .ok a, .ok b => decidable_of_iff (a = b) (by simp)
  | .ok _, .error _ => isFalse (fun h => Except.noConfusion h)
  | .error _, .ok _ => isFalse (fun h => Except.noConfusion h)
  | .error e, .error f => decidable_of_iff (e = f) (by simp)

example :
    (((cssSelectorBuilder.element ("a")).bind (fun s => s.attr ("href$=\".png\""))).bind
      (fun s => s.pseudoClass ("focus"))).map CreateSelector.stringify =
    .ok ("a[href$=\".png\"]:focus") := by decide

example :
    (cssSelectorBuilder.id ("a")).bind (fun s => s.id ("b")) = .error duplicateMessage := by
  decide

example :
    (cssSelectorBuilder.id ("a")).bind (fun s => s.element ("b")) = .error orderMessage := by
  decide

/-- Rank of a fragment kind: its index in `positionsElements`, the quantity
the ordering guards of `position` compare. -/
def rank (k : Kind) : Int :=
  indexOfStr positionsElements (kindName k)

/-- Singleton kinds: those the duplicate guard of `position` singles out. -/
def isSingleton (k : Kind) : Prop :=
  k = .element ∨ k = .id ∨ k = .pseudoElement

instance (k : Kind) : Decidable (isSingleton k) := by
  unfold isSingleton; infer_instance

/-- Dispatch from a fragment kind to the corresponding mutator method. -/
def addFragment (sel : CreateSelector) (k : Kind) (v : String) :
    Except String CreateSelector :=
  match k with
  | .element => sel.element v
  | .id => sel.id v
  | .«class» => sel.«class» v
  | .attr => sel.attr v
  | .pseudoClass => sel.pseudoClass v
  | .pseudoElement => sel.pseudoElement v

/-- Settings update performed by the mutator of kind `k` (singletons are
overwritten, array kinds are appended to). -/
def updateSettings (d : Settings) (k : Kind) (v : String) : Settings :=
  match k with
  | .element => { d with element := some v }
  | .id => { d with id := some v }
  | .«class» => { d with «class» := d.«class» ++ [v] }
  | .attr => { d with attr := d.attr ++ [v] }
  | .pseudoClass => { d with pseudoClass := d.pseudoClass ++ [v] }
  | .pseudoElement => { d with pseudoElement := some v }

/-- Effect of a successful fragment-adding call on the whole instance. -/
def applyFrag (sel : CreateSelector) (c : Kind × String) : CreateSelector :=
  { settings := updateSettings sel.settings c.1 c.2, lastElement := kindName c.1 }

/-- Guard-free success condition of `position` for kind `k` from bookkeeping
state `last`: both source guards are false. -/
def stepOK (last : String) (k : Kind) : Prop :=
  ¬(indexOfStr positionsElements (kindName k) < indexOfStr positionsElements last) ∧
  ¬((kindName k = "element" ∨ kindName k = "id" ∨ kindName k = "pseudoElement") ∧
    indexOfStr positionsElements (kindName k) = indexOfStr positionsElements last)

instance (last : String) (k : Kind) : Decidable (stepOK last k) := by
  unfold stepOK; infer_instance

/-- Chained execution of a list of fragment-adding calls on one selector,
propagating the first thrown error (the JS chain `sel.a(..).b(..)...`). -/
def runCalls : CreateSelector → List (Kind × String) → Except String CreateSelector
  | sel, [] => .ok sel
  | sel, c :: cs =>
    match addFragment sel c.1 c.2 with
    | .error e => .error e
    | .ok s => runCalls s cs

/-- Success condition for a whole call sequence started from bookkeeping state
`last`: every step's guards are false at the state reached before it. -/
def chainFrom : String → List Kind → Prop
  | _, [] => True
  | last, k :: ks => stepOK last k ∧ chainFrom (kindName k) ks

instance chainFromDec : (last : String) → (ks : List Kind) → Decidable (chainFrom last ks)
  | _, [] => isTrue trivial
  | last, k :: ks =>
    haveI := chainFromDec (kindName k) ks
    inferInstanceAs (Decidable (stepOK last k ∧ chainFrom (kindName k) ks))

theorem addFragment_eq (sel : CreateSelector) (k : Kind) (v : String) :
    addFragment sel k v =
      (sel.position (kindName k)).map fun s =>
        { s with settings := updateSettings s.settings k v } := by
  cases k <;> rfl

theorem position_ok {sel : CreateSelector} {k : Kind} (h : stepOK sel.lastElement k) :
    sel.position (kindName k) = .ok { sel with lastElement := kindName k } := by
  unfold CreateSelector.position
  rw [if_neg h.1, if_neg h.2]

theorem addFragment_ok {sel : CreateSelector} {k : Kind} (v : String)
    (h : stepOK sel.lastElement k) :
    addFragment sel k v = .ok (applyFrag sel (k, v)) := by
  rw [addFragment_eq, position_ok h]
  rfl

theorem position_order {sel : CreateSelector} {k : Kind}
    (h : indexOfStr positionsElements (kindName k) <
      indexOfStr positionsElements sel.lastElement) :
    sel.position (kindName k) = .error orderMessage := by
  unfold CreateSelector.position
  rw [if_pos h]

theorem position_dup {sel : CreateSelector} {k : Kind}
    (h1 : ¬indexOfStr positionsElements (kindName k) <
      indexOfStr positionsElements sel.lastElement)
    (h2 : (kindName k = "element" ∨ kindName k = "id" ∨ kindName k = "pseudoElement") ∧
      indexOfStr positionsElements (kindName k) = indexOfStr positionsElements sel.lastElement) :
    sel.position (kindName k) = .error duplicateMessage := by
  unfold CreateSelector.position
  rw [if_neg h1, if_pos h2]

theorem singleton_iff_names (k : Kind) :
    isSingleton k ↔
      (kindName k = "element" ∨ kindName k = "id" ∨ kindName k = "pseudoElement") := by
  cases k <;> simp [isSingleton, kindName]

theorem addFragment_error_cases {sel : CreateSelector} {k : Kind} {v : String} {e : String}
    (h : addFragment sel k v = .error e) :
    e = orderMessage ∨ e = duplicateMessage := by
  rw [addFragment_eq] at h
  unfold CreateSelector.position at h
  by_cases h1 : indexOfStr positionsElements (kindName k) <
      indexOfStr positionsElements sel.lastElement
  · rw [if_pos h1] at h
    exact Or.inl (Except.error.inj h).symm
  · rw [if_neg h1] at h
    by_cases h2 : (kindName k = "element" ∨ kindName k = "id" ∨ kindName k = "pseudoElement") ∧
        indexOfStr positionsElements (kindName k) = indexOfStr positionsElements sel.lastElement
    · rw [if_pos h2] at h
      exact Or.inr (Except.error.inj h).symm
    · rw [if_neg h2] at h
      exact absurd h (by simp [Except.map])

theorem addFragment_ok_inv {sel : CreateSelector} {k : Kind} {v : String} {s : CreateSelector}
    (h : addFragment sel k v = .ok s) :
    stepOK sel.lastElement k ∧ s = applyFrag sel (k, v) := by
  rw [addFragment_eq] at h
  unfold CreateSelector.position at h
  by_cases h1 : indexOfStr positionsElements (kindName k) <
      indexOfStr positionsElements sel.lastElement
  · rw [if_pos h1] at h
    exact absurd h (by simp [Except.map])
  · rw [if_neg h1] at h
    by_cases h2 : (kindName k = "element" ∨ kindName k = "id" ∨ kindName k = "pseudoElement") ∧
        indexOfStr positionsElements (kindName k) = indexOfStr positionsElements sel.lastElement
    · rw [if_pos h2] at h
      exact absurd h (by simp [Except.map])
    · rw [if_neg h2] at h
      refine ⟨⟨h1, h2⟩, ?_⟩
      simpa [Except.map, applyFrag] using (Except.ok.inj h).symm

/-- CLAIM C1: for every selector and fragment-adding call of kind `K`, with
`rank` the index in `positionsElements` and the initial `lastElement` ranking
below all categories, the call fails with the order-violation error when
`rank K` is below the rank of `lastElement`, fails with the
duplicate-singleton error when `K` is a singleton kind of equal rank, and
otherwise succeeds, storing the fragment and setting `lastElement` to `K`. -/
theorem claim_C1_fragment_call_trichotomy (sel : CreateSelector) (k : Kind) (v : String) :
    (indexOfStr positionsElements newCreateSelector.lastElement < rank k) ∧
    (rank k < indexOfStr positionsElements sel.lastElement →
      addFragment sel k v = .error orderMessage) ∧
    (isSingleton k → rank k = indexOfStr positionsElements sel.lastElement →
      addFragment sel k v = .error duplicateMessage) ∧
    (¬rank k < indexOfStr positionsElements sel.lastElement →
      ¬(isSingleton k ∧ rank k = indexOfStr positionsElements sel.lastElement) →
      addFragment sel k v =
        .ok { settings := updateSettings sel.settings k v, lastElement := kindName k }) := by
  refine ⟨by cases k <;> decide, fun h => ?_, fun hs he => ?_, fun h1 h2 => ?_⟩
  · rw [addFragment_eq, position_order h]
    rfl
  · rw [addFragment_eq,
      position_dup (by rw [← rank.eq_def, he]; exact lt_irrefl _)
        ⟨(singleton_iff_names k).mp hs, he⟩]
    rfl
  · have step : stepOK sel.lastElement k :=
      ⟨h1, fun hc => h2 ⟨(singleton_iff_names k).mpr hc.1, hc.2⟩⟩
    rw [addFragment_ok v step]
    rfl

/-- Concrete instances of the three branches of the C1 theorem: an element
added after an id violates the order, a second id is a duplicate singleton,
and an element added to a fresh selector succeeds. -/
theorem claim_C1_witness :
    addFragment { settings := newCreateSelector.settings, lastElement := "id" }
        Kind.element "x" = .error orderMessage ∧
    addFragment { settings := newCreateSelector.settings, lastElement := "id" }
        Kind.id "x" = .error duplicateMessage ∧
    addFragment newCreateSelector Kind.element "a" =
      .ok { settings := updateSettings newCreateSelector.settings Kind.element "a",
            lastElement := kindName Kind.element } :=
  ⟨(claim_C1_fragment_call_trichotomy _ Kind.element "x").2.1 (by decide),
   (claim_C1_fragment_call_trichotomy _ Kind.id "x").2.2.1 (by decide) (by decide),
   (claim_C1_fragment_call_trichotomy _ Kind.element "a").2.2.2 (by decide) (by decide)⟩

/-- CLAIM C6: an out-of-order fragment-adding call fails with the
order-violation error, whose message names the required order, and in
particular `id('a').element('b')` fails that way. -/
theorem claim_C6_order_violation :
    (∀ (sel : CreateSelector) (k : Kind) (v : String),
      rank k < indexOfStr positionsElements sel.lastElement →
      addFragment sel k v = .error orderMessage) ∧
    (∃ before after, orderMessage =
      before ++ "element, id, class, attribute, pseudo-class, pseudo-element" ++ after) ∧
    ((cssSelectorBuilder.id ("a")).bind (fun s => s.element ("b")) = .error orderMessage) := by
  refine ⟨fun sel k v h => ?_, ⟨"Selector parts should be arranged in the following order: ",
    "", by decide⟩, by decide⟩
  rw [addFragment_eq, position_order h]
  rfl

/-- Concrete instance of the C6 theorem: adding an element when the last
added fragment was an id raises the order-violation error. -/
theorem claim_C6_witness :
    addFragment { settings := newCreateSelector.settings, lastElement := "id" }
        Kind.element "b" = .error orderMessage :=
  claim_C6_order_violation.1 _ Kind.element "b" (by decide)

/-- Embedding of the object literal returned by `Rectangle` (lines 23-30):
the two data fields; `getArea` reads them through `this`. -/
structure RectObj where
  width : Int
  height : Int
deriving DecidableEq, Repr

/-- Embedding of the `getArea` method: `this.width * this.height`. -/
def RectObj.getArea (r : RectObj) : Int :=
  r.width * r.height

/-- Embedding of the `Rectangle` constructor function (lines 23-30). -/
def Rectangle (width height : Int) : RectObj :=
  { width := width, height := height }

/-- Names exported by `module.exports` (lines 248-253). -/
def moduleExports : List String :=
  ["Rectangle", "getJSON", "fromJSON", "cssSelectorBuilder"]

/-- CLAIM C10: `Rectangle(width, height)` yields an object whose `width` and
`height` fields are the given numbers and whose `getArea()` returns their
product, and `Rectangle` is among the module's exports. -/
theorem claim_C10_rectangle :
    (∀ width height : Int,
      (Rectangle width height).width = width ∧
      (Rectangle width height).height = height ∧
      (Rectangle width height).getArea = width * height) ∧
    ("Rectangle") ∈ moduleExports :=
  ⟨fun _ _ => ⟨rfl, rfl, rfl⟩, by decide⟩

/-- Selector value `div#main` as built by `element('div').id('main')`. -/
def selDivMain : CreateSelector :=
  { settings :=
      { element := some ("div")
        id := some ("main")
        «class» := []
        attr := []
        pseudoClass := []
        pseudoElement := none }
    lastElement := "id" }

/-- Selector value `table#data` as built by `element('table').id('data')`. -/
def selTableData : CreateSelector :=
  { settings :=
      { element := some ("table")
        id := some ("data")
        «class» := []
        attr := []
        pseudoClass := []
        pseudoElement := none }
    lastElement := "id" }

/-- CLAIM C3: `combine(l, t, r).stringify()` is the left rendering, a space,
the token, a space, the right rendering, recursively for nested operands; in
particular the `div#main + table#data` scenario holds. -/
theorem claim_C3_combine_stringify :
    (∀ (l r : SelectorVal) (t : String),
      (cssSelectorBuilder.combine l t r).stringify =
        l.stringify ++ " " ++ t ++ " " ++ r.stringify) ∧
    ((cssSelectorBuilder.element ("div")).bind (fun s => s.id ("main")) = .ok selDivMain ∧
     (cssSelectorBuilder.element ("table")).bind (fun s => s.id ("data")) = .ok selTableData ∧
     (cssSelectorBuilder.combine (.single selDivMain) ("+")
        (.single selTableData)).stringify = "div#main + table#data") :=
  ⟨fun _ _ _ => rfl, by decide, by decide, by decide⟩

/-- Embedding of one invocation of the `stringify()` method on a selector
value: the returned string together with the receiver afterwards. Neither
`CreateSelector.stringify` (lines 185-200) nor `Combinator.prototype.stringify`
(lines 211-215) assigns to any property, so the receiver is unchanged. -/
def stringifyCall (s : SelectorVal) : String × SelectorVal :=
  (s.stringify, s)

/-- Iterated `stringify()` invocations: the list of returned strings of `n`
successive calls, each made on the receiver left by the previous call. -/
def repeatCalls : SelectorVal → Nat → List String × SelectorVal
  | s, 0 => ([], s)
  | s, n + 1 =>
    let p := stringifyCall s
    let q := repeatCalls p.2 n
    (p.1 :: q.1, q.2)

/-- CLAIM C7: any number of `stringify()` calls on one selector value all
return the same string, and the selector is not mutated by rendering. -/
theorem claim_C7_stringify_pure (s : SelectorVal) (n : Nat) :
    repeatCalls s n = (List.replicate n s.stringify, s) := by
  induction n with
  | zero => rfl
  | succ n ih => simp [repeatCalls, stringifyCall, ih, List.replicate]

/-- Category-order rendering of a fragment sequence exactly as the spec words
it: each fragment wrapped between the category's decorations, concatenated in
insertion order with no separators. -/
def specList (before after : String) : List String → String
  | [] => ""
  | v :: vs => before ++ v ++ after ++ specList before after vs

/-- Spec-worded rendering of an optional singleton slot: a present fragment is
wrapped between the category's decorations, an absent one contributes
nothing. -/
def specOpt (before after : String) : Option String → String
  | none => ""
  | some v => before ++ v ++ after

/-- Rendering of a settings record as the spec words it: the concatenation,
in the fixed category order, of every present fragment with its category
decoration. -/
def stringifySpec (d : Settings) : String :=
  specOpt ("") ("") d.element ++
  specOpt ("#") ("") d.id ++
  specList (".") ("") d.«class» ++
  specList ("[") ("]") d.attr ++
  specList (":") ("") d.pseudoClass ++
  specOpt ("::") ("") d.pseudoElement

/-- Amended rendering of an optional singleton slot: a singleton fragment set
to the empty string counts as absent and contributes nothing. -/
def specOptAmended (before after : String) : Option String → String
  | none => ""
  | some v => if v = "" then "" else before ++ v ++ after

/-- Amended spec rendering: as `stringifySpec`, except that singleton
fragments equal to the empty string are omitted together with their
decorations. -/
def stringifySpecAmended (d : Settings) : String :=
  specOptAmended ("") ("") d.element ++
  specOptAmended ("#") ("") d.id ++
  specList (".") ("") d.«class» ++
  specList ("[") ("]") d.attr ++
  specList (":") ("") d.pseudoClass ++
  specOptAmended ("::") ("") d.pseudoElement

theorem renderList_acc (before after : String) (xs : List String) (acc : String) :
    xs.foldl (fun prev current => prev ++ before ++ current ++ after) acc =
      acc ++ specList before after xs := by
  induction xs generalizing acc with
  | nil => simp [specList]
  | cons v vs ih =>
    rw [List.foldl_cons, ih]
    simp [specList, String.append_assoc]

theorem renderList_eq_specList (before after : String) (xs : List String) :
    renderList before after xs = specList before after xs := by
  simpa [renderList] using renderList_acc before after xs ""

theorem renderList_fragOpt (before after : String) (o : Option String) :
    renderList before after (fragOpt o) = specOptAmended before after o := by
  cases o with
  | none => rfl
  | some v =>
    by_cases h : v = ""
    · simp [fragOpt, specOptAmended, h, renderList]
    · simp [fragOpt, specOptAmended, h, renderList]

/-- Selector produced by the call `cssSelectorBuilder.id('')`. -/
def selEmptyId : CreateSelector :=
  { settings :=
      { element := none
        id := some ("")
        «class» := []
        attr := []
        pseudoClass := []
        pseudoElement := none }
    lastElement := "id" }

/-- COUNTEREXAMPLE to claim C2 as stated: the selector successfully built by
`id('')` renders as the empty string, while wrapping every present fragment
with its category decoration would render it as `'#'`. -/
theorem claim_C2_counterexample :
    cssSelectorBuilder.id ("") = .ok selEmptyId ∧
    selEmptyId.stringify = "" ∧
    stringifySpec selEmptyId.settings = "#" ∧
    selEmptyId.stringify ≠ stringifySpec selEmptyId.settings := by
  refine ⟨by decide, by decide, by decide, by decide⟩

/-- CLAIM C2 (amended): `stringify()` returns the concatenation, in the fixed
category order, of each present fragment wrapped with its category
decoration, repeated fragments in insertion order with no separators — except
that a singleton fragment (element, id, pseudoElement) equal to the empty
string contributes nothing; in particular the
`element('a').attr('href$=".png"').pseudoClass('focus')` scenario renders as
`'a[href$=".png"]:focus'`. -/
theorem claim_C2_stringify_rendering :
    (∀ sel : CreateSelector, sel.stringify = stringifySpecAmended sel.settings) ∧
    ((((cssSelectorBuilder.element ("a")).bind (fun s => s.attr ("href$=\".png\""))).bind
      (fun s => s.pseudoClass ("focus"))).map CreateSelector.stringify =
      .ok ("a[href$=\".png\"]:focus")) := by
  refine ⟨fun sel => ?_, by decide⟩
  unfold CreateSelector.stringify renderSettings stringifySpecAmended
  rw [renderList_fragOpt, renderList_fragOpt, renderList_fragOpt,
    renderList_eq_specList, renderList_eq_specList, renderList_eq_specList]

/-- CLAIM C9: a singleton fragment set to the empty string is silently
omitted from the rendering together with its decoration, while an empty
string added as a class, attr, or pseudoClass fragment still renders its
decoration. -/
theorem claim_C9_empty_fragments :
    (∀ sel : CreateSelector,
      CreateSelector.stringify
          { sel with settings := { sel.settings with element := some ("") } } =
        CreateSelector.stringify
          { sel with settings := { sel.settings with element := none } } ∧
      CreateSelector.stringify
          { sel with settings := { sel.settings with id := some ("") } } =
        CreateSelector.stringify
          { sel with settings := { sel.settings with id := none } } ∧
      CreateSelector.stringify
          { sel with settings := { sel.settings with pseudoElement := some ("") } } =
        CreateSelector.stringify
          { sel with settings := { sel.settings with pseudoElement := none } }) ∧
    ((cssSelectorBuilder.«class» ("")).map CreateSelector.stringify = .ok (".")) ∧
    ((cssSelectorBuilder.attr ("")).map CreateSelector.stringify = .ok ("[]")) ∧
    ((cssSelectorBuilder.pseudoClass ("")).map CreateSelector.stringify = .ok (":")) := by
  refine ⟨fun sel => ⟨?_, ?_, ?_⟩, by decide, by decide, by decide⟩ <;>
    simp [CreateSelector.stringify, renderSettings, fragOpt]

/-- Spec-worded ordering constraint between two consecutive fragment kinds:
the rank may not decrease, and a singleton kind may not repeat. -/
def validStep (a b : Kind) : Prop :=
  rank a ≤ rank b ∧ ¬(isSingleton b ∧ a = b)

instance : DecidableRel validStep := fun a b => by
  unfold validStep; infer_instance

/-- Spec-worded validity of a call-kind sequence: consecutive category ranks
are non-decreasing and no singleton kind is immediately repeated. -/
def validSeq (ks : List Kind) : Prop :=
  List.Chain' validStep ks

instance validSeqDec : (ks : List Kind) → Decidable (validSeq ks)
  | [] => isTrue List.chain'_nil
  | [_] => isTrue (List.chain'_singleton _)
  | a :: b :: ks =>
    haveI := validSeqDec (b :: ks)
    decidable_of_iff (validStep a b ∧ validSeq (b :: ks)) List.chain'_cons.symm

/-- Non-decreasing category ranks along a call-kind sequence, exactly as
claim C4 words its hypothesis. -/
def nonDecreasingRanks (ks : List Kind) : Prop :=
  List.Chain' (fun a b => rank a ≤ rank b) ks

instance nonDecreasingRanksDec : (ks : List Kind) → Decidable (nonDecreasingRanks ks)
  | [] => isTrue List.chain'_nil
  | [_] => isTrue (List.chain'_singleton _)
  | a :: b :: ks =>
    haveI := nonDecreasingRanksDec (b :: ks)
    decidable_of_iff (rank a ≤ rank b ∧ nonDecreasingRanks (b :: ks))
      (by simp [nonDecreasingRanks, List.chain'_cons])

/-- Values added by the calls of one category, in call order. -/
def valuesOf (k : Kind) (calls : List (Kind × String)) : List String :=
  calls.filterMap fun c => if c.1 = k then some c.2 else none

/-- Last value of a list, or a default when the list is empty: the overwrite
semantics of a nullable singleton slot. -/
def olast : List String → Option String → Option String
  | [], d => d
  | v :: xs, _ => olast xs (some v)

/-- Settings after executing a call list on top of the settings `d`:
singleton slots keep their last written value, array slots accumulate. -/
def mergeSettings (d : Settings) (calls : List (Kind × String)) : Settings :=
  { element := olast (valuesOf .element calls) d.element
    id := olast (valuesOf .id calls) d.id
    «class» := d.«class» ++ valuesOf .«class» calls
    attr := d.attr ++ valuesOf .attr calls
    pseudoClass := d.pseudoClass ++ valuesOf .pseudoClass calls
    pseudoElement := olast (valuesOf .pseudoElement calls) d.pseudoElement }

/-- Per-category grouping of a call list starting from the fresh settings. -/
def collect (calls : List (Kind × String)) : Settings :=
  mergeSettings newCreateSelector.settings calls

theorem rank_injective {a b : Kind} (h : rank a = rank b) : a = b := by
  cases a <;> cases b <;> revert h <;> decide

theorem stepOK_sentinel (k : Kind) : stepOK newCreateSelector.lastElement k := by
  cases k <;> decide

theorem validStep_stepOK {a b : Kind} (h : validStep a b) : stepOK (kindName a) b := by
  cases a <;> cases b <;> revert h <;> decide

theorem stepOK_validStep {a b : Kind} (h : stepOK (kindName a) b) : validStep a b := by
  cases a <;> cases b <;> revert h <;> decide

theorem chain'_chainFrom : ∀ {a : Kind} {ks : List Kind},
    List.Chain' validStep (a :: ks) → chainFrom (kindName a) ks := by
  intro a ks
  induction ks generalizing a with
  | nil => exact fun _ => trivial
  | cons b ks ih =>
    intro h
    rcases List.chain'_cons.mp h with ⟨hab, htail⟩
    exact ⟨validStep_stepOK hab, ih htail⟩

theorem validSeq_chainFrom : ∀ {ks : List Kind},
    validSeq ks → chainFrom newCreateSelector.lastElement ks := by
  intro ks h
  match ks with
  | [] => trivial
  | k :: ks => exact ⟨stepOK_sentinel k, chain'_chainFrom h⟩

theorem chainFrom_chain' : ∀ {a : Kind} {ks : List Kind},
    chainFrom (kindName a) ks → List.Chain' validStep (a :: ks) := by
  intro a ks
  induction ks generalizing a with
  | nil => exact fun _ => List.chain'_singleton a
  | cons b ks ih => exact fun h => List.chain'_cons.mpr ⟨stepOK_validStep h.1, ih h.2⟩

theorem chainFrom_validSeq : ∀ {ks : List Kind},
    chainFrom newCreateSelector.lastElement ks → validSeq ks := by
  intro ks h
  match ks with
  | [] => exact List.chain'_nil
  | k :: ks => exact chainFrom_chain' h.2

theorem runCalls_cons (sel : CreateSelector) (c : Kind × String)
    (cs : List (Kind × String)) :
    runCalls sel (c :: cs) =
      (match addFragment sel c.1 c.2 with
        | Except.error e => Except.error e
        | Except.ok s => runCalls s cs) := rfl

theorem runCalls_ok_of_chainFrom :
    ∀ (calls : List (Kind × String)) (sel : CreateSelector),
    chainFrom sel.lastElement (calls.map Prod.fst) →
    runCalls sel calls = .ok (calls.foldl applyFrag sel) := by
  intro calls
  induction calls with
  | nil => exact fun _ _ => rfl
  | cons c cs ih =>
    intro sel h
    obtain ⟨k, v⟩ := c
    have step : stepOK sel.lastElement k := h.1
    rw [runCalls_cons, addFragment_ok v step]
    exact ih (applyFrag sel (k, v)) h.2

theorem chainFrom_of_runCalls_ok :
    ∀ (calls : List (Kind × String)) (sel s : CreateSelector),
    runCalls sel calls = .ok s → chainFrom sel.lastElement (calls.map Prod.fst) := by
  intro calls
  induction calls with
  | nil => exact fun _ _ _ => trivial
  | cons c cs ih =>
    intro sel s h
    obtain ⟨k, v⟩ := c
    rw [runCalls_cons] at h
    rcases haf : addFragment sel k v with e | s₁ <;> rw [haf] at h
    · exact absurd h (by simp)
    · rcases addFragment_ok_inv haf with ⟨step, rfl⟩
      exact ⟨step, ih _ _ h⟩

theorem runCalls_error_cases :
    ∀ (calls : List (Kind × String)) (sel : CreateSelector) (e : String),
    runCalls sel calls = .error e → e = orderMessage ∨ e = duplicateMessage := by
  intro calls
  induction calls with
  | nil => exact fun _ _ h => absurd h (by simp [runCalls])
  | cons c cs ih =>
    intro sel e h
    rw [runCalls_cons] at h
    rcases haf : addFragment sel c.1 c.2 with e₁ | s₁ <;> rw [haf] at h
    · cases h
      exact addFragment_error_cases haf
    · exact ih s₁ e h

theorem mergeSettings_nil (d : Settings) : mergeSettings d [] = d := by
  cases d
  simp [mergeSettings, valuesOf, olast]

theorem mergeSettings_cons (d : Settings) (k : Kind) (v : String)
    (cs : List (Kind × String)) :
    mergeSettings d ((k, v) :: cs) = mergeSettings (updateSettings d k v) cs := by
  cases k <;>
    simp [mergeSettings, updateSettings, valuesOf, olast, List.filterMap_cons]

theorem foldl_applyFrag_settings :
    ∀ (calls : List (Kind × String)) (sel : CreateSelector),
    (calls.foldl applyFrag sel).settings = mergeSettings sel.settings calls := by
  intro calls
  induction calls with
  | nil => exact fun sel => (mergeSettings_nil sel.settings).symm
  | cons c cs ih =>
    intro sel
    obtain ⟨k, v⟩ := c
    rw [List.foldl_cons, ih (applyFrag sel (k, v)), mergeSettings_cons]
    rfl

theorem rank_head_le {a : Kind} {l : List Kind} (h : List.Chain' validStep (a :: l)) :
    ∀ b ∈ l, rank a ≤ rank b := by
  induction l generalizing a with
  | nil => exact fun b hb => absurd hb (List.not_mem_nil b)
  | cons c l ih =>
    rcases List.chain'_cons.mp h with ⟨hac, htail⟩
    intro b hb
    rcases List.mem_cons.mp hb with rfl | hb
    · exact hac.1
    · exact le_trans hac.1 (ih htail b hb)

theorem singleton_not_mem {k : Kind} {l : List Kind} (hs : isSingleton k)
    (h : List.Chain' validStep (k :: l)) : k ∉ l := by
  intro hm
  match l, hm with
  | b :: l', hm =>
    rcases List.chain'_cons.mp h with ⟨hkb, htail⟩
    rcases List.mem_cons.mp hm with rfl | hm'
    · exact hkb.2 ⟨hs, rfl⟩
    · have hbk : b = k :=
        rank_injective (le_antisymm (rank_head_le htail k hm') hkb.1)
      exact hkb.2 ⟨by rw [hbk]; exact hs, hbk.symm⟩

theorem count_le_one_of_validSeq {ks : List Kind} {k : Kind} (hs : isSingleton k)
    (h : validSeq ks) : ks.count k ≤ 1 := by
  induction ks with
  | nil => simp
  | cons a l ih =>
    by_cases hak : a = k
    · subst hak
      have hnm : a ∉ l := singleton_not_mem hs h
      have : l.count a = 0 := List.count_eq_zero.mpr hnm
      simp [List.count_cons, this]
    · have : (a :: l).count k = l.count k := by
        simp [List.count_cons, Ne.symm hak]
      rw [this]
      exact ih h.tail

/-- COUNTEREXAMPLE to claim C4 as stated: the call sequence
`id('a').id('b')` has non-decreasing category ranks, yet construction fails
(with the duplicate-singleton error) instead of succeeding. -/
theorem claim_C4_counterexample :
    nonDecreasingRanks ([(Kind.id, "a"), (Kind.id, "b")].map Prod.fst) ∧
    runCalls newCreateSelector [(Kind.id, "a"), (Kind.id, "b")] =
      .error duplicateMessage := by
  exact ⟨by decide, by decide⟩

/-- CLAIM C4 (amended): for every call sequence whose category ranks are
non-decreasing and in which no singleton kind repeats, construction succeeds
and the resulting settings group the fragments per category in call order, so
`stringify()` renders them grouped in category order. -/
theorem claim_C4_valid_order_succeeds (calls : List (Kind × String))
    (h : validSeq (calls.map Prod.fst)) :
    ∃ sel, runCalls newCreateSelector calls = .ok sel ∧
      sel.settings = collect calls ∧
      sel.stringify = renderSettings (collect calls) := by
  refine ⟨calls.foldl applyFrag newCreateSelector,
    runCalls_ok_of_chainFrom calls newCreateSelector (validSeq_chainFrom h),
    foldl_applyFrag_settings calls newCreateSelector, ?_⟩
  show renderSettings (List.foldl applyFrag newCreateSelector calls).settings = _
  rw [foldl_applyFrag_settings]
  rfl

/-- Concrete instance of the C4 theorem: `element('a').class('b').class('c')`
is a valid ordering, succeeds, and renders grouped in category order. -/
theorem claim_C4_witness :
    validSeq ([(Kind.element, "a"), (Kind.«class», "b"), (Kind.«class», "c")].map Prod.fst) ∧
    ∃ sel, runCalls newCreateSelector
        [(Kind.element, "a"), (Kind.«class», "b"), (Kind.«class», "c")] = .ok sel ∧
      sel.settings = collect [(Kind.element, "a"), (Kind.«class», "b"), (Kind.«class», "c")] ∧
      sel.stringify =
        renderSettings (collect [(Kind.element, "a"), (Kind.«class», "b"), (Kind.«class», "c")]) :=
  ⟨by decide, claim_C4_valid_order_succeeds _ (by decide)⟩

/-- COUNTEREXAMPLE to claim C5 as stated: `id('a').class('x').id('b')` adds a
second id, yet the error raised is the order-violation error (the class call
raised `lastElement`'s rank above id's), not the duplicate-singleton error. -/
theorem claim_C5_counterexample :
    2 ≤ (([(Kind.id, "a"), (Kind.«class», "x"), (Kind.id, "b")]).map Prod.fst).count Kind.id ∧
    runCalls newCreateSelector [(Kind.id, "a"), (Kind.«class», "x"), (Kind.id, "b")] =
      .error orderMessage ∧
    orderMessage ≠ duplicateMessage := by
  exact ⟨by decide, by decide, by decide⟩

/-- CLAIM C5 (amended): a call sequence that adds a second element, id, or
pseudoElement never succeeds — it fails with the duplicate-singleton error or
with the order-violation error — and in particular `id('a').id('b')` fails
with the duplicate-singleton error. -/
theorem claim_C5_second_singleton_fails :
    (∀ (calls : List (Kind × String)) (k : Kind), isSingleton k →
      2 ≤ (calls.map Prod.fst).count k →
      runCalls newCreateSelector calls = .error orderMessage ∨
        runCalls newCreateSelector calls = .error duplicateMessage) ∧
    ((cssSelectorBuilder.id ("a")).bind (fun s => s.id ("b")) = .error duplicateMessage) := by
  refine ⟨fun calls k hs hcnt => ?_, by decide⟩
  rcases hr : runCalls newCreateSelector calls with e | s
  · rcases runCalls_error_cases calls _ e hr with rfl | rfl
    · exact Or.inl rfl
    · exact Or.inr rfl
  · exfalso
    have hv := chainFrom_validSeq (chainFrom_of_runCalls_ok calls _ s hr)
    have := count_le_one_of_validSeq hs hv
    omega

/-- Concrete instance of the C5 theorem: the call list of `id('a').id('b')`
counts the singleton kind id twice and construction fails with one of the two
construction errors. -/
theorem claim_C5_witness :
    isSingleton Kind.id ∧
    2 ≤ (([(Kind.id, "a"), (Kind.id, "b")]).map Prod.fst).count Kind.id ∧
    (runCalls newCreateSelector [(Kind.id, "a"), (Kind.id, "b")] = .error orderMessage ∨
     runCalls newCreateSelector [(Kind.id, "a"), (Kind.id, "b")] = .error duplicateMessage) :=
  ⟨by decide, by decide,
    claim_C5_second_singleton_fails.1 [(Kind.id, "a"), (Kind.id, "b")] Kind.id
      (by decide) (by decide)⟩

/-- Valid code points below the surrogate range have a faithful
`Char.ofNat`. -/
theorem toNat_ofNat_valid (n : Nat) (h : n < 55296) : (Char.ofNat n).toNat = n := by
  have hv : n.isValidChar := Or.inl h
  simp [Char.ofNat, hv, Char.ofNatAux, Char.toNat, UInt32.toNat]

/-- JSON values, the data the platform `JSON.stringify`/`JSON.parse` pair
handles. Numbers are modelled as integers (the IEEE-754 fraction/exponent
forms lie outside this embedding). -/
inductive Json where
  | null
  | bool (b : Bool)
  | num (n : Int)
  | str (s : String)
  | arr (elems : List Json)
  | obj (members : List (String × Json))

/-- Decimal digit character. -/
def digitChar (d : Nat) : Char :=
  Char.ofNat (48 + d)

/-- Lowercase hexadecimal digit character, as `JSON.stringify` emits in
`\u00XX` escapes. -/
def hexDigitChar (d : Nat) : Char :=
  if d < 10 then Char.ofNat (48 + d) else Char.ofNat (87 + d)

/-- Decimal digits of a natural number, most significant first. -/
def natChars (n : Nat) : List Char :=
  if _ : n < 10 then [digitChar n]
  else natChars (n / 10) ++ [digitChar (n % 10)]
termination_by n
decreasing_by exact Nat.div_lt_self (by omega) (by omega)

/-- Decimal rendering of an integer, a leading minus sign when negative. -/
def intChars (i : Int) : List Char :=
  if i < 0 then '-' :: natChars i.natAbs else natChars i.natAbs

/-- Escaping `JSON.stringify` applies to one string character: quote and
backslash get a backslash escape, the named control characters get their
short escapes, other control characters become `\u00XX`, and everything else
is emitted verbatim. -/
def escapeChar (c : Char) : List Char :=
  if c = '"' then ['\\', '"']
  else if c = '\\' then ['\\', '\\']
  else if c = Char.ofNat 8 then ['\\', 'b']
  else if c = Char.ofNat 9 then ['\\', 't']
  else if c = Char.ofNat 10 then ['\\', 'n']
  else if c = Char.ofNat 12 then ['\\', 'f']
  else if c = Char.ofNat 13 then ['\\', 'r']
  else if c.toNat < 32 then
    ['\\', 'u', '0', '0', hexDigitChar (c.toNat / 16), hexDigitChar (c.toNat % 16)]
  else [c]

/-- Escaped form of a character sequence. -/
def escapeList : List Char → List Char
  | [] => []
  | c :: cs => escapeChar c ++ escapeList cs

/-- Opening curly brace character. -/
def lbrace : Char := Char.ofNat 123

/-- Closing curly brace character. -/
def rbrace : Char := Char.ofNat 125

/-- Keyword emitted for the JSON `null` literal. -/
def nullChars : List Char := ['n', 'u', 'l', 'l']

/-- Keyword emitted for the JSON `true` literal. -/
def trueChars : List Char := ['t', 'r', 'u', 'e']

/-- Keyword emitted for the JSON `false` literal. -/
def falseChars : List Char := ['f', 'a', 'l', 's', 'e']

mutual

/-- Characters `JSON.stringify` produces for a value: literals for `null` and
booleans, decimal digits for numbers, a quoted escaped string, bracketed
comma-separated elements for arrays, braced comma-separated `"key":value`
members for objects. -/
def serJson : Json → List Char
  | .null => nullChars
  | .bool true => trueChars
  | .bool false => falseChars
  | .num n => intChars n
  | .str s => '"' :: (escapeList s.data ++ ['"'])
  | .arr [] => ['[', ']']
  | .arr (x :: xs) => '[' :: (serElems x xs ++ [']'])
  | .obj [] => [lbrace, rbrace]
  | .obj ((k, v) :: kvs) => lbrace :: (serMembers k v kvs ++ [rbrace])
termination_by j => sizeOf j
decreasing_by all_goals (simp_wf; try omega)

/-- Comma-separated serialisation of a non-empty array tail. -/
def serElems : Json → List Json → List Char
  | x, [] => serJson x
  | x, y :: xs => serJson x ++ (',' :: serElems y xs)
termination_by x xs => sizeOf x + sizeOf xs
decreasing_by all_goals (simp_wf; try omega)

/-- Comma-separated serialisation of non-empty object members. -/
def serMembers : String → Json → List (String × Json) → List Char
  | k, v, [] => '"' :: (escapeList k.data ++ ('"' :: (':' :: serJson v)))
  | k, v, (k₂, v₂) :: kvs =>
    ('"' :: (escapeList k.data ++ ('"' :: (':' :: serJson v)))) ++
      (',' :: serMembers k₂ v₂ kvs)
termination_by _ v kvs => sizeOf v + sizeOf kvs
decreasing_by all_goals (simp_wf; try omega)

end

mutual

/-- Measure of a JSON value: enough parser fuel to consume it. -/
def jsize : Json → Nat
  | .null => 1
  | .bool _ => 1
  | .num _ => 1
  | .str _ => 1
  | .arr xs => 1 + lsize xs
  | .obj kvs => 1 + msize kvs
termination_by j => sizeOf j
decreasing_by all_goals (simp_wf; try omega)

/-- Fuel measure of array elements. -/
def lsize : List Json → Nat
  | [] => 0
  | x :: xs => 1 + jsize x + lsize xs
termination_by xs => sizeOf xs
decreasing_by all_goals (simp_wf; try omega)

/-- Fuel measure of object members. -/
def msize : List (String × Json) → Nat
  | [] => 0
  | (_, v) :: kvs => 1 + jsize v + msize kvs
termination_by kvs => sizeOf kvs
decreasing_by all_goals (simp_wf; try omega)

end

/-- Digit test on characters, by code point. -/
def isDigitChar (c : Char) : Bool :=
  48 ≤ c.toNat && c.toNat ≤ 57

/-- Value of a digit sequence, most significant first. -/
def digitsVal (cs : List Char) : Nat :=
  cs.foldl (fun a c => a * 10 + (c.toNat - 48)) 0

/-- Parse a maximal non-empty run of decimal digits. -/
def parseNat (cs : List Char) : Option (Nat × List Char) :=
  let ds := cs.takeWhile isDigitChar
  if ds.isEmpty then none else some (digitsVal ds, cs.dropWhile isDigitChar)

/-- Parse an integer: an optional minus sign, then decimal digits. -/
def parseIntChars : List Char → Option (Int × List Char)
  | [] => none
  | c :: rest =>
    if c = '-' then (parseNat rest).map (fun p => (-(p.1 : Int), p.2))
    else (parseNat (c :: rest)).map (fun p => ((p.1 : Int), p.2))

/-- Value of a hexadecimal digit character, if any. -/
def hexVal (c : Char) : Option Nat :=
  if 48 ≤ c.toNat ∧ c.toNat ≤ 57 then some (c.toNat - 48)
  else if 97 ≤ c.toNat ∧ c.toNat ≤ 102 then some (c.toNat - 87)
  else if 65 ≤ c.toNat ∧ c.toNat ≤ 70 then some (c.toNat - 55)
  else none

/-- Character denoted by a single-letter escape sequence, if any. -/
def escMap (e : Char) : Option Char :=
  if e = '"' then some '"'
  else if e = '\\' then some '\\'
  else if e = '/' then some '/'
  else if e = 'b' then some (Char.ofNat 8)
  else if e = 't' then some (Char.ofNat 9)
  else if e = 'n' then some (Char.ofNat 10)
  else if e = 'f' then some (Char.ofNat 12)
  else if e = 'r' then some (Char.ofNat 13)
  else none

/-- Parse the body of a JSON string after its opening quote: characters up to
the closing quote, resolving backslash escapes (named ones and `\uXXXX`). -/
def parseStrChars : List Char → Option (List Char × List Char)
  | [] => none
  | c :: rest =>
    if c = '"' then some ([], rest)
    else if c = '\\' then
      match rest with
      | [] => none
      | e :: rest₂ =>
        if e = 'u' then
          match rest₂ with
          | a :: b :: c₂ :: d :: rest₃ =>
            match hexVal a, hexVal b, hexVal c₂, hexVal d with
            | some ha, some hb, some hc, some hd =>
              (parseStrChars rest₃).map fun p =>
                (Char.ofNat (ha * 4096 + hb * 256 + hc * 16 + hd) :: p.1, p.2)
            | _, _, _, _ => none
          | _ => none
        else
          match escMap e with
          | some ch => (parseStrChars rest₂).map fun p => (ch :: p.1, p.2)
          | none => none
    else
      (parseStrChars rest).map fun p => (c :: p.1, p.2)
termination_by cs => cs.length
decreasing_by all_goals (simp_wf; try omega)

/-- Consume an expected literal sequence of characters. -/
def stripPre : List Char → List Char → Option (List Char)
  | [], cs => some cs
  | _ :: _, [] => none
  | p :: ps, c :: cs => if c = p then stripPre ps cs else none

mutual

/-- Fuel-indexed JSON value parser, the model of `JSON.parse` on the
whitespace-free texts `JSON.stringify` produces: literals, strings, integer
numbers, arrays and objects. The fuel only bounds nesting of the recursion;
`jsonParse` below supplies more fuel than any input can consume. -/
def parseVal : Nat → List Char → Option (Json × List Char)
  | 0, _ => none
  | _ + 1, [] => none
  | fuel + 1, c :: rest =>
    if c = 'n' then (stripPre (['u', 'l', 'l']) rest).map fun r => (.null, r)
    else if c = 't' then (stripPre (['r', 'u', 'e']) rest).map fun r => (.bool true, r)
    else if c = 'f' then (stripPre (['a', 'l', 's', 'e']) rest).map fun r => (.bool false, r)
    else if c = '"' then (parseStrChars rest).map fun p => (.str (String.mk p.1), p.2)
    else if c = '[' then
      match rest with
      | ']' :: r => some (.arr [], r)
      | _ => (parseElems fuel rest).map fun p => (.arr p.1, p.2)
    else if c = lbrace then
      match rest with
      | [] => none
      | r₀ :: r =>
        if r₀ = rbrace then some (.obj [], r)
        else (parseMembers fuel rest).map fun p => (.obj p.1, p.2)
    else
      (parseIntChars (c :: rest)).map fun p => (.num p.1, p.2)

/-- Parse one or more comma-separated array elements up to the closing
bracket. -/
def parseElems : Nat → List Char → Option (List Json × List Char)
  | 0, _ => none
  | fuel + 1, cs =>
    match parseVal fuel cs with
    | some (v, r) =>
      match r with
      | ',' :: r₂ => (parseElems fuel r₂).map fun p => (v :: p.1, p.2)
      | ']' :: r₂ => some ([v], r₂)
      | _ => none
    | none => none

/-- Parse one or more comma-separated `"key":value` object members up to the
closing brace. -/
def parseMembers : Nat → List Char → Option (List (String × Json) × List Char)
  | 0, _ => none
  | fuel + 1, cs =>
    match cs with
    | [] => none
    | c :: rest =>
      if c = '"' then
        match parseStrChars rest with
        | some (k, r) =>
          match r with
          | ':' :: r₂ =>
            match parseVal fuel r₂ with
            | some (v, r₃) =>
              match r₃ with
              | ',' :: r₄ => (parseMembers fuel r₄).map fun p => ((String.mk k, v) :: p.1, p.2)
              | r₀ :: r₄ => if r₀ = rbrace then some ([(String.mk k, v)], r₄) else none
              | [] => none
            | none => none
          | _ => none
        | none => none
      else none

end

/-- Model of `JSON.parse`: run the value parser with ample fuel and demand
that the whole text is consumed. -/
def jsonParse (s : String) : Option Json :=
  match parseVal (s.data.length + 1) s.data with
  | some (v, []) => some v
  | _ => none

/-- Model of `JSON.stringify` on JSON-representable data. -/
def jsonStringify (v : Json) : String :=
  String.mk (serJson v)

/-- Embedding of `getJSON` (lines 43-45): `JSON.stringify(obj)`. -/
def getJSON (obj : Json) : String :=
  jsonStringify obj

/-- Value produced by `fromJSON`: the parsed data fields together with the
prototype object (the behaviour/method table) grafted onto them. -/
structure ProtoObject (β : Type) where
  data : Json
  proto : β

/-- Embedding of `fromJSON` (lines 59-63): `JSON.parse(json)` followed by
`Object.setPrototypeOf(obj, proto)`; a parse failure models the thrown
`SyntaxError`. -/
def fromJSON {β : Type} (proto : β) (json : String) : Option (ProtoObject β) :=
  match jsonParse json with
  | some data => some { data := data, proto := proto }
  | none => none

theorem digitChar_toNat {d : Nat} (h : d < 10) : (digitChar d).toNat = 48 + d :=
  toNat_ofNat_valid _ (by omega)

theorem isDigitChar_digitChar {d : Nat} (h : d < 10) : isDigitChar (digitChar d) = true := by
  simp only [isDigitChar, digitChar_toNat h]
  simp only [Bool.and_eq_true, decide_eq_true_eq]
  omega

theorem natChars_ne_nil (n : Nat) : natChars n ≠ [] := by
  unfold natChars
  split <;> simp

theorem natChars_digits (n : Nat) : ∀ c ∈ natChars n, isDigitChar c = true := by
  induction n using natChars.induct with
  | case1 n h =>
    intro c hc
    rw [natChars, dif_pos h] at hc
    simp only [List.mem_singleton] at hc
    subst hc
    exact isDigitChar_digitChar h
  | case2 n h ih =>
    intro c hc
    rw [natChars, dif_neg h] at hc
    rcases List.mem_append.mp hc with hc | hc
    · exact ih c hc
    · simp only [List.mem_singleton] at hc
      subst hc
      exact isDigitChar_digitChar (Nat.mod_lt _ (by omega))

theorem digitsVal_append_last (l : List Char) (c : Char) :
    digitsVal (l ++ [c]) = digitsVal l * 10 + (c.toNat - 48) := by
  simp [digitsVal, List.foldl_append]

theorem digitsVal_natChars (n : Nat) : digitsVal (natChars n) = n := by
  induction n using natChars.induct with
  | case1 n h =>
    rw [natChars, dif_pos h]
    simp only [digitsVal, List.foldl_cons, List.foldl_nil, digitChar_toNat h]
    omega
  | case2 n h ih =>
    rw [natChars, dif_neg h, digitsVal_append_last, ih,
      digitChar_toNat (Nat.mod_lt _ (by omega))]
    omega

/-- Continuation texts that do not start with a digit, so a preceding number
token cannot absorb them. -/
def headNotDigit (r : List Char) : Prop :=
  ∀ c, r.head? = some c → isDigitChar c = false

theorem headNotDigit_nil : headNotDigit [] := by
  intro c hc
  simp at hc

theorem headNotDigit_cons {c : Char} (l : List Char) (h : isDigitChar c = false) :
    headNotDigit (c :: l) := by
  intro c' hc'
  simp only [List.head?] at hc'
  cases hc'
  exact h

theorem takeWhile_all_append {p : Char → Bool} (l r : List Char)
    (hl : ∀ c ∈ l, p c = true) (hr : ∀ c, r.head? = some c → p c = false) :
    (l ++ r).takeWhile p = l ∧ (l ++ r).dropWhile p = r := by
  induction l with
  | nil =>
    simp only [List.nil_append]
    cases r with
    | nil => simp
    | cons c r' =>
      have := hr c rfl
      simp [List.takeWhile, List.dropWhile, this]
  | cons c l' ih =>
    have hc := hl c (List.mem_cons_self c l')
    have hrec := ih (fun x hx => hl x (List.mem_cons_of_mem c hx))
    simp [List.takeWhile, List.dropWhile, hc, hrec.1, hrec.2]

theorem parseNat_natChars (n : Nat) (rest : List Char) (hrest : headNotDigit rest) :
    parseNat (natChars n ++ rest) = some (n, rest) := by
  obtain ⟨htake, hdrop⟩ := takeWhile_all_append (natChars n) rest (natChars_digits n) hrest
  unfold parseNat
  simp only [htake, hdrop]
  rw [if_neg (by simpa [List.isEmpty_iff] using natChars_ne_nil n)]
  rw [digitsVal_natChars]

theorem intChars_head (i : Int) :
    ∃ c t, intChars i = c :: t ∧ (c = '-' ∨ isDigitChar c = true) := by
  unfold intChars
  by_cases hi : i < 0
  · exact ⟨'-', natChars i.natAbs, by rw [if_pos hi], Or.inl rfl⟩
  · rw [if_neg hi]
    rcases hnc : natChars i.natAbs with _ | ⟨c, t⟩
    · exact absurd hnc (natChars_ne_nil _)
    · exact ⟨c, t, rfl, Or.inr (natChars_digits _ c (by rw [hnc]; exact List.mem_cons_self c t))⟩

theorem parseIntChars_intChars (i : Int) (rest : List Char) (hrest : headNotDigit rest) :
    parseIntChars (intChars i ++ rest) = some (i, rest) := by
  unfold intChars
  by_cases hi : i < 0
  · rw [if_pos hi]
    show parseIntChars ('-' :: (natChars i.natAbs ++ rest)) = _
    simp only [parseIntChars]
    rw [if_pos trivial, parseNat_natChars _ _ hrest]
    simp only [Option.map]
    congr 2
    omega
  · rw [if_neg hi]
    rcases hnc : natChars i.natAbs with _ | ⟨c, t⟩
    · exact absurd hnc (natChars_ne_nil _)
    · have hdig : isDigitChar c = true :=
        natChars_digits _ c (by rw [hnc]; exact List.mem_cons_self c t)
      have hcm : c ≠ '-' := by
        intro hcontra
        rw [hcontra] at hdig
        exact absurd hdig (by decide)
      show parseIntChars (c :: (t ++ rest)) = _
      simp only [parseIntChars]
      rw [if_neg hcm, ← List.cons_append, ← hnc, parseNat_natChars _ _ hrest]
      simp only [Option.map]
      congr 2
      omega

theorem hexVal_hexDigitChar {d : Nat} (h : d < 16) : hexVal (hexDigitChar d) = some d := by
  unfold hexDigitChar
  by_cases h10 : d < 10
  · rw [if_pos h10]
    unfold hexVal
    rw [toNat_ofNat_valid (48 + d) (by omega), if_pos (by omega)]
    congr 1
    omega
  · rw [if_neg h10]
    unfold hexVal
    rw [toNat_ofNat_valid (87 + d) (by omega), if_neg (by omega), if_pos (by omega)]
    congr 1
    omega

theorem stripPre_append : ∀ (p rest : List Char), stripPre p (p ++ rest) = some rest := by
  intro p
  induction p with
  | nil => intro rest; rfl
  | cons c ps ih => intro rest; simp [stripPre, ih]

theorem parseStr_escape : ∀ (s rest : List Char),
    parseStrChars (escapeList s ++ ('"' :: rest)) = some (s, rest) := by
  intro s
  induction s with
  | nil =>
    intro rest
    show parseStrChars ('"' :: rest) = _
    rw [parseStrChars.eq_def]
    simp
  | cons c cs ih =>
    intro rest
    show parseStrChars (escapeChar c ++ escapeList cs ++ ('"' :: rest)) = _
    rw [List.append_assoc]
    unfold escapeChar
    split_ifs with h1 h2 h3 h4 h5 h6 h7 h8
    · subst h1
      rw [parseStrChars.eq_def]
      simp [escMap, ih]
    · subst h2
      rw [parseStrChars.eq_def]
      simp [escMap, ih]
    · subst h3
      rw [parseStrChars.eq_def]
      simp [escMap, ih]
    · subst h4
      rw [parseStrChars.eq_def]
      simp [escMap, ih]
    · subst h5
      rw [parseStrChars.eq_def]
      simp [escMap, ih]
    · subst h6
      rw [parseStrChars.eq_def]
      simp [escMap, ih]
    · subst h7
      rw [parseStrChars.eq_def]
      simp [escMap, ih]
    · have hdiv : c.toNat / 16 < 16 := by omega
      have hmod : c.toNat % 16 < 16 := Nat.mod_lt _ (by omega)
      have hzero : hexVal '0' = some 0 := by decide
      have hofn : Char.ofNat (c.toNat / 16 * 16 + c.toNat % 16) = c := by
        rw [show c.toNat / 16 * 16 + c.toNat % 16 = c.toNat by omega, Char.ofNat_toNat]
      rw [parseStrChars.eq_def]
      simp [hzero, hexVal_hexDigitChar hdiv, hexVal_hexDigitChar hmod, hofn, ih]
    · rw [parseStrChars.eq_def]
      simp [h1, h2, ih]

theorem jsize_pos (v : Json) : 1 ≤ jsize v := by
  cases v <;> simp [jsize]

theorem number_head_ne {c : Char} (h : c = '-' ∨ isDigitChar c = true) :
    c ≠ 'n' ∧ c ≠ 't' ∧ c ≠ 'f' ∧ c ≠ '"' ∧ c ≠ '[' ∧ c ≠ lbrace := by
  rcases h with rfl | hd
  · exact ⟨by decide, by decide, by decide, by decide, by decide, by decide⟩
  · refine ⟨?_, ?_, ?_, ?_, ?_, ?_⟩ <;> rintro rfl <;> revert hd <;> decide

theorem serJson_head (v : Json) : ∃ c t, serJson v = c :: t ∧
    (c = 'n' ∨ c = 't' ∨ c = 'f' ∨ c = '"' ∨ c = '[' ∨ c = lbrace ∨
      c = '-' ∨ isDigitChar c = true) := by
  cases v with
  | null => exact ⟨'n', _, by rw [serJson, nullChars], Or.inl rfl⟩
  | bool b =>
    cases b with
    | true => exact ⟨'t', _, by rw [serJson, trueChars], Or.inr (Or.inl rfl)⟩
    | false => exact ⟨'f', _, by rw [serJson, falseChars], Or.inr (Or.inr (Or.inl rfl))⟩
  | num n =>
    obtain ⟨c, t, heq, hc⟩ := intChars_head n
    exact ⟨c, t, by rw [serJson, heq],
      Or.inr (Or.inr (Or.inr (Or.inr (Or.inr (Or.inr hc)))))⟩
  | str s => exact ⟨'"', _, by rw [serJson], Or.inr (Or.inr (Or.inr (Or.inl rfl)))⟩
  | arr elems =>
    cases elems with
    | nil => exact ⟨'[', _, by rw [serJson], Or.inr (Or.inr (Or.inr (Or.inr (Or.inl rfl))))⟩
    | cons x xs =>
      exact ⟨'[', _, by rw [serJson], Or.inr (Or.inr (Or.inr (Or.inr (Or.inl rfl))))⟩
  | obj members =>
    cases members with
    | nil =>
      exact ⟨lbrace, _, by rw [serJson],
        Or.inr (Or.inr (Or.inr (Or.inr (Or.inr (Or.inl rfl)))))⟩
    | cons kv kvs =>
      obtain ⟨k, v⟩ := kv
      exact ⟨lbrace, _, by rw [serJson],
        Or.inr (Or.inr (Or.inr (Or.inr (Or.inr (Or.inl rfl)))))⟩

theorem head_ne_closers {c : Char}
    (h : c = 'n' ∨ c = 't' ∨ c = 'f' ∨ c = '"' ∨ c = '[' ∨ c = lbrace ∨
      c = '-' ∨ isDigitChar c = true) :
    c ≠ ']' ∧ c ≠ rbrace := by
  rcases h with rfl | rfl | rfl | rfl | rfl | rfl | rfl | hd
  · exact ⟨by decide, by decide⟩
  · exact ⟨by decide, by decide⟩
  · exact ⟨by decide, by decide⟩
  · exact ⟨by decide, by decide⟩
  · exact ⟨by decide, by decide⟩
  · exact ⟨by decide, by decide⟩
  · exact ⟨by decide, by decide⟩
  · exact ⟨by rintro rfl; revert hd; decide, by rintro rfl; revert hd; decide⟩

theorem serElems_eq (x : Json) (xs : List Json) :
    ∃ t, serElems x xs = serJson x ++ t := by
  cases xs with
  | nil => exact ⟨[], by rw [serElems, List.append_nil]⟩
  | cons y ys => exact ⟨',' :: serElems y ys, by rw [serElems]⟩

theorem serMembers_head (k : String) (v : Json) (kvs : List (String × Json)) :
    ∃ t, serMembers k v kvs = '"' :: t := by
  cases kvs with
  | nil => exact ⟨_, by rw [serMembers]⟩
  | cons kv kvs' =>
    obtain ⟨k₂, v₂⟩ := kv
    exact ⟨_, by rw [serMembers, List.cons_append]⟩

theorem parse_ser (fuel : Nat) :
    (∀ (v : Json) (rest : List Char), jsize v ≤ fuel → headNotDigit rest →
      parseVal fuel (serJson v ++ rest) = some (v, rest)) ∧
    (∀ (x : Json) (xs : List Json) (rest : List Char), lsize (x :: xs) ≤ fuel →
      parseElems fuel (serElems x xs ++ (']' :: rest)) = some (x :: xs, rest)) ∧
    (∀ (k : String) (v : Json) (kvs : List (String × Json)) (rest : List Char),
      msize ((k, v) :: kvs) ≤ fuel →
      parseMembers fuel (serMembers k v kvs ++ (rbrace :: rest)) =
        some ((k, v) :: kvs, rest)) := by
  induction fuel with
  | zero =>
    refine ⟨fun v rest hsz _ => absurd hsz (by have := jsize_pos v; omega),
      fun x xs rest hsz => absurd hsz (by rw [lsize]; omega),
      fun k v kvs rest hsz => absurd hsz (by rw [msize]; omega)⟩
  | succ fuel ih =>
    obtain ⟨ihV, ihE, ihM⟩ := ih
    refine ⟨?_, ?_, ?_⟩
    · intro v rest hsz hrest
      cases v with
      | null =>
        rw [serJson, parseVal.eq_def]
        simp [stripPre, nullChars]
      | bool b =>
        cases b <;> (rw [serJson, parseVal.eq_def]; simp [stripPre, trueChars, falseChars])
      | num n =>
        obtain ⟨c₀, t, heq, hc⟩ := intChars_head n
        obtain ⟨h1, h2, h3, h4, h5, h6⟩ := number_head_ne hc
        rw [serJson, heq, List.cons_append, parseVal.eq_def]
        simp [h1, h2, h3, h4, h5, h6]
        rw [← List.cons_append, ← heq, parseIntChars_intChars n rest hrest]
      | str s =>
        obtain ⟨sd⟩ := s
        rw [serJson, List.cons_append, List.append_assoc, List.singleton_append,
          parseVal.eq_def]
        simp [parseStr_escape]
      | arr elems =>
        cases elems with
        | nil =>
          rw [serJson, parseVal.eq_def]
          simp
        | cons x xs =>
          have hlsz : lsize (x :: xs) ≤ fuel := by
            rw [jsize] at hsz
            omega
          obtain ⟨tE, hsE⟩ := serElems_eq x xs
          obtain ⟨c₁, t₁, hj, hc₁⟩ := serJson_head x
          have hne : c₁ ≠ ']' := (head_ne_closers hc₁).1
          have hform : serElems x xs ++ (']' :: rest) =
              c₁ :: (t₁ ++ (tE ++ (']' :: rest))) := by
            rw [hsE, hj]
            simp [List.append_assoc]
          rw [serJson, List.cons_append, List.append_assoc, List.singleton_append,
            parseVal.eq_def]
          simp
          rw [hform]
          split
          · rename_i r heqm
            injection heqm with h₁ _
            exact absurd h₁ hne
          · rw [← hform, ihE x xs rest hlsz]
            rfl
      | obj members =>
        cases members with
        | nil =>
          rw [serJson, parseVal.eq_def]
          simp [lbrace, rbrace]
        | cons kv kvs =>
          obtain ⟨k, v⟩ := kv
          have hmsz : msize ((k, v) :: kvs) ≤ fuel := by
            rw [jsize] at hsz
            omega
          obtain ⟨tM, hsM⟩ := serMembers_head k v kvs
          rw [serJson, List.cons_append, List.append_assoc, List.singleton_append,
            parseVal.eq_def]
          simp [show lbrace ≠ 'n' from by decide, show lbrace ≠ 't' from by decide,
            show lbrace ≠ 'f' from by decide, show lbrace ≠ '"' from by decide,
            show lbrace ≠ '[' from by decide]
          rw [hsM, List.cons_append]
          simp [show ('"' : Char) ≠ rbrace from by decide]
          rw [← List.cons_append, ← hsM, ihM k v kvs rest hmsz]
    · intro x xs rest hsz
      have hjx : jsize x ≤ fuel := by
        rw [lsize] at hsz
        have := jsize_pos x
        omega
      cases xs with
      | nil =>
        rw [serElems, parseElems,
          ihV x (']' :: rest) hjx (headNotDigit_cons _ (by decide))]
        simp
      | cons y ys =>
        have hys : lsize (y :: ys) ≤ fuel := by
          rw [lsize] at hsz
          omega
        rw [serElems, List.append_assoc, List.cons_append, parseElems,
          ihV x (',' :: (serElems y ys ++ (']' :: rest))) hjx
            (headNotDigit_cons _ (by decide))]
        simp [ihE y ys rest hys]
    · intro k v kvs rest hsz
      obtain ⟨kd⟩ := k
      have hjv : jsize v ≤ fuel := by
        rw [msize] at hsz
        omega
      cases kvs with
      | nil =>
        rw [serMembers, List.cons_append, parseMembers.eq_def]
        simp [parseStr_escape]
        rw [ihV v (rbrace :: rest) hjv (headNotDigit_cons _ (by decide))]
        simp [show rbrace ≠ ',' from by decide]
      | cons kv kvs' =>
        obtain ⟨k₂, v₂⟩ := kv
        have hm2 : msize ((k₂, v₂) :: kvs') ≤ fuel := by
          rw [msize] at hsz
          omega
        rw [serMembers, List.cons_append, parseMembers.eq_def]
        simp [parseStr_escape]
        rw [ihV v (',' :: (serMembers k₂ v₂ kvs' ++ (rbrace :: rest))) hjv
          (headNotDigit_cons _ (by decide))]
        simp [ihM k₂ v₂ kvs' rest hm2]

theorem json_sizeOf_pos (v : Json) : 1 ≤ sizeOf v := by
  cases v <;> simp_arith

theorem intChars_length_pos (i : Int) : 1 ≤ (intChars i).length := by
  unfold intChars
  split
  · simp
  · have := natChars_ne_nil i.natAbs
    have := List.length_pos.mpr this
    omega

theorem sizes_le (n : Nat) :
    (∀ v : Json, sizeOf v ≤ n → jsize v ≤ (serJson v).length) ∧
    (∀ (x : Json) (xs : List Json), sizeOf x + sizeOf xs ≤ n →
      lsize (x :: xs) ≤ (serElems x xs).length + 1) ∧
    (∀ (k : String) (v : Json) (kvs : List (String × Json)), sizeOf v + sizeOf kvs ≤ n →
      msize ((k, v) :: kvs) ≤ (serMembers k v kvs).length + 1) := by
  induction n with
  | zero =>
    refine ⟨fun v hsv => absurd hsv (by have := json_sizeOf_pos v; omega),
      fun x xs hs => absurd hs (by have := json_sizeOf_pos x; omega),
      fun k v kvs hs => absurd hs (by have := json_sizeOf_pos v; omega)⟩
  | succ n ih =>
    obtain ⟨ihV, ihE, ihM⟩ := ih
    refine ⟨?_, ?_, ?_⟩
    · intro v hsv
      cases v with
      | null => rw [jsize, serJson]; simp [nullChars]
      | bool b => cases b <;> (rw [jsize, serJson]; simp [trueChars, falseChars])
      | num m =>
        rw [jsize, serJson]
        exact intChars_length_pos m
      | str s => rw [jsize, serJson]; simp
      | arr elems =>
        cases elems with
        | nil => rw [jsize, serJson]; simp [lsize]
        | cons x xs =>
          have hb : sizeOf x + sizeOf xs ≤ n := by
            simp at hsv
            omega
          have := ihE x xs hb
          rw [jsize, serJson]
          simp only [List.length_cons, List.length_append, List.length_singleton]
          omega
      | obj members =>
        cases members with
        | nil => rw [jsize, serJson]; simp [msize]
        | cons kv kvs =>
          obtain ⟨k, v⟩ := kv
          have hb : sizeOf v + sizeOf kvs ≤ n := by
            simp at hsv
            omega
          have := ihM k v kvs hb
          rw [jsize, serJson]
          simp only [List.length_cons, List.length_append, List.length_singleton]
          omega
    · intro x xs hs
      cases xs with
      | nil =>
        have hx : sizeOf x ≤ n := by
          simp at hs
          omega
        have := ihV x hx
        rw [lsize, lsize, serElems]
        omega
      | cons y ys =>
        have hx : sizeOf x ≤ n := by
          have := json_sizeOf_pos y
          simp at hs
          omega
        have hyys : sizeOf y + sizeOf ys ≤ n := by
          have := json_sizeOf_pos x
          simp at hs
          omega
        have h1 := ihV x hx
        have h2 := ihE y ys hyys
        rw [lsize, serElems]
        simp only [List.length_append, List.length_cons]
        omega
    · intro k v kvs hs
      cases kvs with
      | nil =>
        have hv : sizeOf v ≤ n := by
          simp at hs
          omega
        have := ihV v hv
        rw [msize, msize, serMembers]
        simp only [List.length_cons, List.length_append]
        omega
      | cons kv kvs' =>
        obtain ⟨k₂, v₂⟩ := kv
        have hv : sizeOf v ≤ n := by
          simp at hs
          omega
        have h2b : sizeOf v₂ + sizeOf kvs' ≤ n := by
          have := json_sizeOf_pos v
          simp at hs
          omega
        have h1 := ihV v hv
        have h2 := ihM k₂ v₂ kvs' h2b
        rw [msize, serMembers]
        simp only [List.length_cons, List.length_append]
        omega

theorem jsize_le_serJson_length (v : Json) : jsize v ≤ (serJson v).length :=
  (sizes_le (sizeOf v)).1 v le_rfl

theorem jsonParse_jsonStringify (v : Json) : jsonParse (jsonStringify v) = some v := by
  have h := (parse_ser ((serJson v).length + 1)).1 v []
    (by have := jsize_le_serJson_length v; omega) headNotDigit_nil
  rw [List.append_nil] at h
  show (match parseVal ((serJson v).length + 1) (serJson v) with
    | some (v, []) => some v
    | _ => none) = some v
  rw [h]

/-- CLAIM C8: deserialising the serialisation of any JSON-representable value
`x` with behaviour `b` — `fromJSON b (getJSON x)` — succeeds and produces a
value whose data fields are exactly `x` and whose method table is `b`. -/
theorem claim_C8_json_round_trip {β : Type} (b : β) (x : Json) :
    fromJSON b (getJSON x) = some { data := x, proto := b } := by
  unfold fromJSON getJSON
  rw [jsonParse_jsonStringify]

